import Mathlib

/-
Verification development for the FSA validator (`assignment_1/A.py`) and the
FSA-to-regular-expression synthesizer (`assignment_2/A.py`).

Shallow embedding conventions:
  * Python strings are Lean `String`s; raw-text helpers (strip, split) are
    re-implemented structurally on `List Char` so that every definition
    reduces inside the kernel.
  * Python exceptions are modelled by `Except PyFault` / `Option`:
    `ValueError` (tuple-unpacking of a `split` result), `IndexError`
    (out-of-range list subscript), `KeyError` (missing dict key, modelled as
    `Option.none` in the assignment_2 graph builder) and `AssertionError`
    (failed `assert` during parsing).
  * Python dicts keyed by state names (assignment_1) are modelled as total
    functions `String → List (String × String)`; after `create_graphs` runs,
    the dict's key set is exactly the declared state set, so iteration over
    the keys is modelled as iteration over the declared `states` list (the
    loops in question compute order-independent results).
  * The recursive depth-first searches are given explicit fuel; the fuel
    passed by the callers (`|states| + 1`) dominates the recursion depth of
    the Python original, whose depth is bounded by the number of distinct
    reachable states plus one.
-/

/-- Kinds of uncaught Python runtime faults relevant to this program. -/
inductive PyFault where
  | valueErr  : PyFault
  | indexErr  : PyFault
  | assertErr : PyFault
deriving DecidableEq, Repr

/-- Python `list.__getitem__`: `l[n]`, raising `IndexError` when out of range. -/
def listGet (l : List α) (n : Nat) : Except PyFault α :=
  match l.get? n with
  | some a => Except.ok a
  | none => Except.error PyFault.indexErr

/-- Python `str.split(c)` on the character level: splits on every occurrence
of `c`, keeping empty segments. -/
def splitChar (c : Char) : List Char → List (List Char)
  | [] => [[]]
  | x :: xs =>
    match splitChar c xs with
    | [] => [[]]
    | g :: gs => if x = c then [] :: g :: gs else (x :: g) :: gs

/-- Python `s.split(c)` returning `String` pieces. -/
def splitStr (c : Char) (s : String) : List String :=
  (splitChar c s.toList).map String.mk

/-- Python `s1, a, s2 = el.split('>')`: succeeds only when the split has
exactly three fields, otherwise the unpacking raises `ValueError`. -/
def split3 (el : String) : Option (String × String × String) :=
  match splitStr '>' el with
  | [s1, a, s2] => some (s1, a, s2)
  | _ => none

/-- Python `set.add`: insert a name if absent (visited sets are modelled as
duplicate-free lists). -/
def insertNew (u : String) (vis : List String) : List String :=
  if u ∈ vis then vis else u :: vis

/-! ## Assignment 2 (`assignment_2/A.py`): the Kleene synthesizer -/

/-- Python dict comprehension `{states[i]: i for i in range(n)}`: a later
duplicate key overwrites an earlier one, so lookup returns the LAST index of
`s` in `states`; a missing key raises `KeyError`, modelled as `none`. -/
def state2id (states : List String) (s : String) : Option Nat :=
  match states.reverse.findIdx? (fun t => t == s) with
  | some i => some (states.length - 1 - i)
  | none => none

/-- Total variant of `state2id`, used only where the source is guarded so that
the key is present (`validate` has already checked membership). -/
def state2idD (states : List String) (s : String) : Nat :=
  (state2id states s).getD 0

/-- Dense `n × n` adjacency matrix holding the list of symbols on each edge. -/
def Gr2 : Type := Nat → Nat → List String

/-- Empty assignment_2 graph. -/
def gr2empty : Gr2 := fun _ _ => []

/-- Append symbol `a` to the cell `(i, j)` (Python `graph[i][j].append(a)`). -/
def addE2 (g : Gr2) (i j : Nat) (a : String) : Gr2 :=
  fun x y => if x = i ∧ y = j then g x y ++ [a] else g x y

/-- Python `FSA.__create_graphs`: for each transition string, split it on
`'>'` (a wrong field count raises `ValueError`) and look both endpoints up in
`state2id` (an undeclared endpoint raises `KeyError`); `none` models the
constructor dying with an uncaught exception. -/
def buildGraphs2 (states : List String) : List String → Gr2 → Gr2 → Option (Gr2 × Gr2)
  | [], g, ug => some (g, ug)
  | el :: rest, g, ug =>
    match split3 el with
    | none => none
    | some (s1, a, s2) =>
      match state2id states s1, state2id states s2 with
      | some i, some j =>
        buildGraphs2 states rest (addE2 g i j a) (addE2 (addE2 ug i j a) j i a)
      | _, _ => none

/-- The assignment_2 `FSA` object after a successful `__init__`. -/
structure FSA2 where
  states : List String
  alpha : List String
  initial : List String
  accepting : List String
  trans : List String
  graph : Gr2
  ugraph : Gr2

/-- Python `FSA.__init__`: stores the five token lists and builds both
graphs; construction fails (uncaught exception) iff `__create_graphs` does. -/
def FSA2.build (states alpha initial accepting trans : List String) : Option FSA2 :=
  (buildGraphs2 states trans gr2empty gr2empty).map
    (fun p => ⟨states, alpha, initial, accepting, trans, p.1, p.2⟩)

/-- Python `FSA.__check_E2`. -/
def FSA2.checkE2 (f : FSA2) : Bool :=
  f.initial.length = 0

/-- Python `FSA.__check_E3`. -/
def FSA2.checkE3 (f : FSA2) : Bool :=
  f.accepting.length = 0

/-- Scan of the transition endpoints performed by `FSA.__check_E4`; the
`split3` default is never taken for a successfully constructed `FSA`. -/
def e4trans (states : List String) : List String → Option String
  | [] => none
  | el :: rest =>
    let t := (split3 el).getD ("", "", "")
    if t.1 ∉ states then some t.1
    else if t.2.2 ∉ states then some t.2.2
    else e4trans states rest

/-- Python `FSA.__check_E4`: first identifier among the initial states, the
accepting states and the transition endpoints that is not declared. -/
def FSA2.checkE4 (f : FSA2) : Option String :=
  match f.initial.find? (fun s => decide (s ∉ f.states)) with
  | some s => some s
  | none =>
    match f.accepting.find? (fun s => decide (s ∉ f.states)) with
    | some s => some s
    | none => e4trans f.states f.trans

/-- Python `FSA.__check_E5`: first transition symbol not in the alphabet. -/
def e5trans (alpha : List String) : List String → Option String
  | [] => none
  | el :: rest =>
    let t := (split3 el).getD ("", "", "")
    if t.2.1 ∉ alpha then some t.2.1 else e5trans alpha rest

/-- Python `FSA.__DFS` (assignment_2): fuelled depth-first search over state
names using the dense graph `g`. -/
def dfs2 (states : List String) (g : Gr2) : Nat → String → List String → List String
  | 0, _, vis => vis
  | fuel + 1, u, vis =>
    (List.range states.length).foldl
      (fun vs v =>
        if states.getD v "" ∉ vs ∧ g (state2idD states u) v ≠ [] then
          dfs2 states g fuel (states.getD v "") vs
        else vs)
      (insertNew u vis)

/-- Python `FSA.__check_E6`: the undirected DFS from the initial state must
visit every declared state. -/
def FSA2.checkE6 (f : FSA2) : Bool :=
  (dfs2 f.states f.ugraph (f.states.length + 1) (f.initial.headD "") []).length ≠ f.states.length

/-- Python `FSA.__check_E7`: some state has two outgoing edges with the same
symbol. -/
def FSA2.checkE7 (f : FSA2) : Bool :=
  (List.range f.states.length).any (fun u =>
    let lst := (List.range f.states.length).foldl (fun acc v => acc ++ f.graph u v) []
    f.alpha.any (fun el => lst.count el > 1))

/-- Python `FSA.validate`: the fixed-priority chain E2, E3, E4, E5, E6, E7;
returns the empty string on success. -/
def FSA2.validate (f : FSA2) : String :=
  if f.checkE2 then "E2: Initial state is not defined"
  else if f.checkE3 then "E3: Set of accepting states is empty"
  else
    match f.checkE4 with
    | some s => "E4: A state \x27" ++ s ++ "\x27 is not in the set of states"
    | none =>
      match e5trans f.alpha f.trans with
      | some a => "E5: A transition \x27" ++ a ++ "\x27 is not represented in the alphabet"
      | none =>
        if f.checkE6 then "E6: Some states are disjoint"
        else if f.checkE7 then "E7: FSA is nondeterministic"
        else ""

/-- Python `sorted` on strings: stable mergesort under the lexicographic
(code-point) order. -/
def sortStr (l : List String) : List String :=
  l.mergeSort (fun a b => decide (a ≤ b))

/-- Round-0 table entry of `FSA.Kleene`: the sorted alternation of the direct
edge symbols, with the empty-string alternative `eps` appended on the
diagonal, `eps` alone on an edgeless diagonal cell and the empty-language
constant off the diagonal. -/
def R0 (f : FSA2) (i j : Nat) : String :=
  if f.graph i j ≠ [] then
    "|".intercalate (sortStr (f.graph i j)) ++ (if i = j then "|eps" else "")
  else if i = j then "eps" else "\x7b\x7d"

/-- One Kleene round: the closed-form update reading only the previous
round's table. -/
def kleeneStep (Rp : Nat → Nat → String) (k : Nat) (i j : Nat) : String :=
  "(" ++ Rp i k ++ ")(" ++ Rp k k ++ ")*(" ++ Rp k j ++ ")|(" ++ Rp i j ++ ")"

/-- Table after `k` Kleene rounds (round `k` routes through state `k - 1`). -/
def kleeneTable (f : FSA2) : Nat → Nat → Nat → String
  | 0 => fun i j => R0 f i j
  | k + 1 => fun i j => kleeneStep (kleeneTable f k) k i j

/-- Python `FSA.Kleene`: return the validation error verbatim when validation
fails, otherwise run `n` rounds over the `n × n` table and join the
parenthesized `R[initial][f]` entries over all accepting states `f`. -/
def FSA2.Kleene (f : FSA2) : String :=
  if f.validate ≠ "" then f.validate
  else
    "|".intercalate (f.accepting.map (fun s =>
      "(" ++ kleeneTable f f.states.length
          (state2idD f.states (f.initial.headD "")) (state2idD f.states s) ++ ")"))

/-! ## Assignment 1 (`assignment_1/A.py`): the validator -/

/-- Name-keyed adjacency of the assignment_1 dict graphs: for each source
state the list of `(destination, symbol)` pairs in insertion order. -/
def Gr1 : Type := String → List (String × String)

/-- Empty assignment_1 graph (the dicts start empty in `__init__`). -/
def gr1empty : Gr1 := fun _ => []

/-- Python `graph[k].append(v)` (with `graph[k] = []` inserted on demand). -/
def addE1 (g : Gr1) (k : String) (v : String × String) : Gr1 :=
  fun x => if x = k then g x ++ [v] else g x

/-- The five token lists held by `FSA_validator`. -/
structure In1 where
  states : List String
  alpha : List String
  init_st : List String
  fin_st : List String
  trans : List String

/-- Python `FSA_validator.create_graphs`: split each transition (a wrong
field count raises `ValueError`), silently skip triples whose endpoints are
not declared states, and append the edge to the directed graph and both
mirrored entries to the undirected one.  The final keys-completion loop of
the source is the identity under the total-function representation. -/
def create_graphs1 (states : List String) : List String → Gr1 → Gr1 → Except PyFault (Gr1 × Gr1)
  | [], g, ug => Except.ok (g, ug)
  | el :: rest, g, ug =>
    match split3 el with
    | none => Except.error PyFault.valueErr
    | some (s1, a, s2) =>
      if s1 ∉ states ∨ s2 ∉ states then create_graphs1 states rest g ug
      else
        create_graphs1 states rest (addE1 g s1 (s2, a))
          (addE1 (addE1 ug s1 (s2, a)) s2 (s1, a))

/-- Graphs built by `create_graphs` from empty dicts, as in a fresh
`FSA_validator` instance. -/
def buildGraphs1 (states trans : List String) : Except PyFault (Gr1 × Gr1) :=
  create_graphs1 states trans gr1empty gr1empty

/-- Python `FSA_validator.check_E1`: the first declared initial state, then
the first declared accepting state, missing from the states set (the
transition-endpoint scan is commented out in the source). -/
def e1first (inp : In1) : Option String :=
  match inp.init_st.find? (fun s => decide (s ∉ inp.states)) with
  | some s => some s
  | none => inp.fin_st.find? (fun s => decide (s ∉ inp.states))

/-- Python `FSA_validator.DFS`: fuelled depth-first search over the
name-keyed graph. -/
def dfs1 (g : Gr1) : Nat → String → List String → List String
  | 0, _, vis => vis
  | fuel + 1, u, vis =>
    (g u).foldl (fun vs v => if v.1 ∉ vs then dfs1 g fuel v.1 vs else vs)
      (insertNew u vis)

/-- Python `FSA_validator.check_E3`: scan the transitions for a symbol
outside the alphabet; the split of each token may raise `ValueError`. -/
def e3scan (alpha : List String) : List String → Except PyFault (Option String)
  | [] => Except.ok none
  | el :: rest =>
    match split3 el with
    | none => Except.error PyFault.valueErr
    | some (_, a, _) => if a ∉ alpha then Except.ok (some a) else e3scan alpha rest

/-- Python `FSA_validator.check_W3`: some state has two outgoing edges with
the same symbol (the dict key set equals the declared states here). -/
def checkW3 (g : Gr1) (states alpha : List String) : Bool :=
  states.any (fun u => alpha.any (fun el => ((g u).map Prod.snd).count el > 1))

/-- Completeness classification loop of `FSA_validator.validate` (the
`for`/`break`/`else` over the dict keys): incomplete as soon as some state
has fewer distinct outgoing symbols than the alphabet has entries. -/
def completionLoop (g : Gr1) (alpha : List String) : List String → String
  | [] => "FSA is complete"
  | u :: rest =>
    if ((g u).map Prod.snd).dedup.length < alpha.length then "FSA is incomplete"
    else completionLoop g alpha rest

/-- Result triple of `FSA_validator.validate`: error, completeness line,
warning list. -/
abbrev Res1 : Type := String × String × List String

/-- Python `FSA_validator.validate`, threading the instance's graph dicts
(which it mutates via `create_graphs`): returns the result triple together
with the graphs as left behind on the instance. -/
def validate1 (inp : In1) (g0 ug0 : Gr1) : Except PyFault (Res1 × Gr1 × Gr1) :=
  match e1first inp with
  | some s =>
    Except.ok (("E1: A state \x27" ++ s ++ "\x27 is not in the set of states", "", []), g0, ug0)
  | none =>
    match create_graphs1 inp.states inp.trans g0 ug0 with
    | Except.error f => Except.error f
    | Except.ok (g, ug) =>
      match listGet inp.states 0 with
      | Except.error f => Except.error f
      | Except.ok start =>
        if (dfs1 ug (inp.states.length + 1) start []).length ≠ inp.states.length then
          Except.ok (("E2: Some states are disjoint", "", []), g, ug)
        else
          match e3scan inp.alpha inp.trans with
          | Except.error f => Except.error f
          | Except.ok (some a) =>
            Except.ok (("E3: A transition \x27" ++ a ++ "\x27 is not represented in the alphabet", "", []), g, ug)
          | Except.ok none =>
            if inp.init_st.length = 0 then
              Except.ok (("E4: Initial state is not defined", "", []), g, ug)
            else
              match listGet inp.init_st 0 with
              | Except.error f => Except.error f
              | Except.ok start2 =>
                let warnings : List String :=
                  (if inp.fin_st.length = 0 then ["W1: Accepting state is not defined"] else []) ++
                  (if (dfs1 g (inp.states.length + 1) start2 []).length ≠ inp.states.length then
                    ["W2: Some states are not reachable from the initial state"] else []) ++
                  (if checkW3 g inp.states inp.alpha then ["W3: FSA is nondeterministic"] else [])
                Except.ok (("", completionLoop g inp.alpha inp.states, warnings), g, ug)

/-- Result triple of `validate`, forgetting the graph state. -/
def validateRes1 (inp : In1) (g0 ug0 : Gr1) : Except PyFault Res1 :=
  (validate1 inp g0 ug0).map Prod.fst

/-- Two successive `validate()` calls on the same fresh instance: the second
call sees the graphs the first call left behind. -/
def validateTwice (inp : In1) : Except PyFault (Res1 × Res1) :=
  match validate1 inp gr1empty gr1empty with
  | Except.error f => Except.error f
  | Except.ok (r1, g1, ug1) =>
    match validate1 inp g1 ug1 with
    | Except.error f => Except.error f
    | Except.ok (r2, _, _) => Except.ok (r1, r2)

/-! ### Assignment 1 input parsing and `main` -/

/-- Character-level `startswith`. -/
def startsWithL : List Char → List Char → Bool
  | [], _ => true
  | _ :: _, [] => false
  | p :: ps, x :: xs => p == x && startsWithL ps xs

/-- Python `s.startswith(p)`. -/
def startsWithS (p s : String) : Bool :=
  startsWithL p.toList s.toList

/-- Python `str.strip`. -/
def trimS (s : String) : String :=
  String.mk (((s.toList.dropWhile Char.isWhitespace).reverse.dropWhile Char.isWhitespace).reverse)

/-- Python `lines[i][lines[i].find('[') + 1 : -1]`: the text between the
first `'['` and the final character (`find` returns `-1` when absent). -/
def sliceVal (s : String) : String :=
  let cs := s.toList
  match cs.findIdx? (fun c => c == '[') with
  | some i => String.mk ((cs.drop (i + 1)).dropLast)
  | none => String.mk (cs.dropLast)

/-- Python `lines[i].split(',') if lines[i] else []`. -/
def splitComma (s : String) : List String :=
  if s = "" then [] else splitStr ',' s

/-- Python `str.isalnum` (`False` on the empty string). -/
def isalnumPy (s : String) : Bool :=
  s ≠ "" && s.toList.all Char.isAlphanum

/-- Python `el.replace('_', '').isalnum()`. -/
def alphaTokOk (s : String) : Bool :=
  isalnumPy (String.mk (s.toList.filter (fun c => c ≠ '_')))

/-- Python `check_lines` (assignment_1): five fields, fixed prefixes in
fixed order; a failure is an `AssertionError`. -/
def check_lines1 (lines : List String) : Bool :=
  lines.length = 5 &&
  startsWithS ("states=[") (lines.getD 0 "") &&
  startsWithS ("alpha=[") (lines.getD 1 "") &&
  startsWithS ("init.st=[") (lines.getD 2 "") &&
  startsWithS ("fin.st=[") (lines.getD 3 "") &&
  startsWithS ("trans=[") (lines.getD 4 "")

/-- Python `parse_lines` (assignment_1): strip, drop blank lines, check the
record structure, slice out the bracketed values, split on commas and check
the token alphabets; any failed `assert` raises `AssertionError`. -/
def parse_lines1 (lines : List String) : Except PyFault In1 :=
  let lines := (lines.map trimS).filter (fun x => x.length > 0)
  if ¬ check_lines1 lines then Except.error PyFault.assertErr
  else
    let states := splitComma (sliceVal (lines.getD 0 ""))
    let alpha := splitComma (sliceVal (lines.getD 1 ""))
    let init_st := splitComma (sliceVal (lines.getD 2 ""))
    let fin_st := splitComma (sliceVal (lines.getD 3 ""))
    let trans := splitComma (sliceVal (lines.getD 4 ""))
    if ¬ states.all isalnumPy then Except.error PyFault.assertErr
    else if ¬ alpha.all alphaTokOk then Except.error PyFault.assertErr
    else if states = [] then Except.error PyFault.assertErr
    else if alpha = [] then Except.error PyFault.assertErr
    else Except.ok ⟨states, alpha, init_st, fin_st, trans⟩

/-- Python `main` (assignment_1): the content written to `result.txt`, or an
uncaught fault (`main` catches only `AssertionError`). -/
def main1 (lines : List String) : Except PyFault String :=
  match parse_lines1 lines with
  | Except.error PyFault.assertErr => Except.ok ("Error:\nE5: Input file is malformed\n")
  | Except.error f => Except.error f
  | Except.ok inp =>
    match validate1 inp gr1empty gr1empty with
    | Except.error f => Except.error f
    | Except.ok ((err, comp, warns), _, _) =>
      if err ≠ "" then Except.ok ("Error:\n" ++ err ++ "\n")
      else
        Except.ok (comp ++ "\n" ++
          (if warns ≠ [] then "Warning:\n" ++ String.join (warns.map (fun w => w ++ "\n")) else ""))

/-! ## Test fixtures: concrete automata built exactly as the source builds them -/

/-- Fallback `FSA` record for `Option.getD` on fixture builds (never used:
every fixture's build succeeds). -/
def fsaDflt : FSA2 := ⟨[], [], [], [], [], gr2empty, gr2empty⟩

/-- Two-state fixture: states `{A, B}`, alphabet `{a, b}`, initial `A`,
accepting `B`, transitions `A>a>B` and `B>b>B`. -/
def fsaW2 : FSA2 :=
  (FSA2.build ["A", "B"] ["a", "b"] ["A"] ["B"] ["A>a>B", "B>b>B"]).getD fsaDflt

/-- Fixture with an empty initial-state set (fails validation with E2). -/
def fsaW3 : FSA2 :=
  (FSA2.build ["A"] ["a"] [] ["A"] []).getD fsaDflt

/-! ## C1: the Kleene synthesizer runs `n` rounds and unions the accepting entries -/

/-- C1: for every validated automaton with `n` states, `Kleene` returns the
alternation over the accepting states `f` of the entry `Rⁿ[initial][f]` of
the table obtained after exactly `n` rounds, where each round's table is
computed entirely from the previous round's table by
`Rᵏ⁺¹[i][j] = "(Rᵏ[i][k])(Rᵏ[k][k])*(Rᵏ[k][j])|(Rᵏ[i][j])"`; each term is
parenthesized and joined with `|`, and a single accepting state yields that
single parenthesized term with no dangling operator. -/
theorem kleene_n_rounds_then_union (f : FSA2) (h : f.validate = "") :
    (∀ k i j, kleeneTable f (k + 1) i j =
        "(" ++ kleeneTable f k i k ++ ")(" ++ kleeneTable f k k k ++ ")*(" ++
          kleeneTable f k k j ++ ")|(" ++ kleeneTable f k i j ++ ")") ∧
    f.Kleene = "|".intercalate (f.accepting.map (fun s =>
        "(" ++ kleeneTable f f.states.length
            (state2idD f.states (f.initial.headD "")) (state2idD f.states s) ++ ")")) ∧
    (∀ s, f.accepting = [s] → f.Kleene = "(" ++ kleeneTable f f.states.length
        (state2idD f.states (f.initial.headD "")) (state2idD f.states s) ++ ")") := by
  have hk : f.Kleene = "|".intercalate (f.accepting.map (fun s =>
      "(" ++ kleeneTable f f.states.length
          (state2idD f.states (f.initial.headD "")) (state2idD f.states s) ++ ")")) := by
    unfold FSA2.Kleene
    rw [if_neg (by simp [h])]
  refine ⟨fun k i j => rfl, hk, fun s hs => ?_⟩
  rw [hk, hs]
  rfl

/-- Witness for C1 at the fixture `fsaW2` (single accepting state `B`). -/
theorem kleene_n_rounds_then_union_witness :
    fsaW2.Kleene = "(" ++ kleeneTable fsaW2 fsaW2.states.length
        (state2idD fsaW2.states (fsaW2.initial.headD "")) (state2idD fsaW2.states "B") ++ ")" :=
  (kleene_n_rounds_then_union fsaW2 (by decide)).2.2 "B" (by decide)

/-! ## C2: the round-0 Kleene table -/

/-- C2: for every validated automaton, the initial table entry `R⁰[i][j]` is
the alternation, sorted by symbol, of the symbols on direct edges `i → j`
joined by `|` with `|eps` appended on the diagonal; an edgeless off-diagonal
entry is the empty-language constant, and an edgeless diagonal entry is
exactly `eps`. -/
theorem kleene_round0_entries (f : FSA2) (h : f.validate = "") (i j : Nat) :
    (f.graph i j ≠ [] → ∃ l, List.Perm l (f.graph i j) ∧ List.Sorted (· ≤ ·) l ∧
        R0 f i j = "|".intercalate l ++ (if i = j then "|eps" else "")) ∧
    (f.graph i j = [] → i ≠ j → R0 f i j = "\x7b\x7d") ∧
    (f.graph i j = [] → i = j → R0 f i j = "eps") := by
  refine ⟨fun hne => ?_, fun he hij => ?_, fun he hij => ?_⟩
  · refine ⟨sortStr (f.graph i j), List.mergeSort_perm _ _, ?_, ?_⟩
    · have hp := @List.sorted_mergeSort String (fun a b : String => decide (a ≤ b))
        (fun a b c hab hbc => by
          simp only [decide_eq_true_eq] at *
          exact le_trans hab hbc)
        (fun a b => by
          simp only [Bool.or_eq_true, decide_eq_true_eq]
          exact le_total a b)
        (f.graph i j)
      exact hp.imp (fun hab => of_decide_eq_true hab)
    · unfold R0
      rw [if_pos hne]
  · unfold R0
    rw [if_neg (by simp [he]), if_neg hij]
  · unfold R0
    rw [if_neg (by simp [he]), if_pos hij]

/-- Witness for C2 at the fixture `fsaW2`: the edgeless diagonal entry. -/
theorem kleene_round0_entries_witness : R0 fsaW2 0 0 = "eps" :=
  (kleene_round0_entries fsaW2 (by decide) 0 0).2.2 (by decide) rfl

/-! ## C8: `Kleene` returns the validation error string on a precondition failure -/

/-- C8: whenever validation fails, `Kleene` returns the validation error
string itself instead of a regular expression — never a partial result. -/
theorem kleene_returns_validation_error (f : FSA2) (h : f.validate ≠ "") :
    f.Kleene = f.validate := by
  unfold FSA2.Kleene
  rw [if_pos h]

/-- Witness for C8 at the fixture `fsaW3` (no initial state declared). -/
theorem kleene_returns_validation_error_witness : fsaW3.Kleene = fsaW3.validate :=
  kleene_returns_validation_error fsaW3 (by decide)

/-! ## C5: construction on semantically inconsistent but well-formed sets -/

/-- C5 (failing evaluation): on `states=[A]`, `trans=[A>a>B]`, the strict
variant's constructor dies with a `KeyError` inside `__create_graphs`
instead of deferring the undeclared endpoint `B` to validation error E4,
while the lenient variant's `create_graphs` silently drops the triple and
leaves state `A` without edges. -/
theorem strict_build_crashes_on_undeclared_endpoint :
    FSA2.build ["A"] ["a"] ["A"] ["A"] ["A>a>B"] = none ∧
    (buildGraphs1 ["A"] ["A>a>B"]).map (fun p => p.1 "A") = Except.ok [] :=
  ⟨rfl, rfl⟩

/-! ## C6: `validate` is not idempotent on the same instance -/

/-- C6 (failing evaluation): on the one-state automaton with the single
transition `A>a>A`, the first `validate()` call reports a complete FSA with
no warnings, but the second call on the same instance reports the spurious
nondeterminism warning W3, because `create_graphs` appended every transition
into the persisting graph dicts again. -/
theorem validate_not_idempotent_on_instance :
    validateTwice ⟨["A"], ["a"], ["A"], ["A"], ["A>a>A"]⟩ =
      Except.ok (("", "FSA is complete", []),
        ("", "FSA is complete", ["W3: FSA is nondeterministic"])) := rfl

/-! ## C7: malformed input handling -/

/-- C7 (failing evaluation): a missing `trans` field and a violated field
order are reported as the malformed-input error value, but a transition
token with a single `>` separator slips through parsing and kills `validate`
with an uncaught `ValueError` during the triple unpacking in
`create_graphs`, which `main` does not catch. -/
theorem malformed_handling_gap :
    main1 ["states=[A]", "alpha=[a]", "init.st=[A]", "fin.st=[A]", "trans=[A>a]"] =
      Except.error PyFault.valueErr ∧
    main1 ["states=[A]", "alpha=[a]", "init.st=[A]", "fin.st=[A]"] =
      Except.ok ("Error:\nE5: Input file is malformed\n") ∧
    main1 ["states=[A]", "alpha=[a]", "fin.st=[A]", "init.st=[A]", "trans=[]"] =
      Except.ok ("Error:\nE5: Input file is malformed\n") :=
  ⟨rfl, rfl, rfl⟩

/-! ## Helper lemmas about the assignment_1 validator -/

/-- Strings formed by wrapping a payload between two literals are never
empty when the leading literal is nonempty. -/
theorem msg_ne_empty (p s q : String) (hp : p.data ≠ []) : p ++ s ++ q ≠ "" := by
  intro hh
  have hd : (p ++ s ++ q).data = [] := by rw [hh]
  simp [String.data_append, List.append_eq_nil] at hd
  exact hp hd.1

/-- Specification of `check_E1`: it returns `none` exactly when every
declared initial and accepting state is a member of the states set. -/
theorem e1first_eq_none_iff (inp : In1) :
    e1first inp = none ↔
      (∀ t ∈ inp.init_st, t ∈ inp.states) ∧ (∀ t ∈ inp.fin_st, t ∈ inp.states) := by
  unfold e1first
  cases hfi : inp.init_st.find? (fun s => decide (s ∉ inp.states)) with
  | some s =>
    have hp := List.find?_some hfi
    simp only [decide_eq_true_eq] at hp
    exact iff_of_false (by simp) (fun h => hp (h.1 s (List.mem_of_find?_eq_some hfi)))
  | none =>
    rw [List.find?_eq_none] at hfi
    cases hff : inp.fin_st.find? (fun s => decide (s ∉ inp.states)) with
    | some s =>
      have hp := List.find?_some hff
      simp only [decide_eq_true_eq] at hp
      exact iff_of_false (by simp) (fun h => hp (h.2 s (List.mem_of_find?_eq_some hff)))
    | none =>
      rw [List.find?_eq_none] at hff
      refine iff_of_true rfl ⟨fun t ht => ?_, fun t ht => ?_⟩
      · have := hfi t ht
        simpa using this
      · have := hff t ht
        simpa using this

/-- Specification of `check_E1` in the `some` case: the returned identifier
is a declared initial or accepting state missing from the states set. -/
theorem e1first_eq_some (inp : In1) (s : String) (h : e1first inp = some s) :
    (s ∈ inp.init_st ∨ s ∈ inp.fin_st) ∧ s ∉ inp.states := by
  unfold e1first at h
  cases hfi : inp.init_st.find? (fun t => decide (t ∉ inp.states)) with
  | some t =>
    rw [hfi] at h
    cases h
    have hp := List.find?_some hfi
    simp only [decide_eq_true_eq] at hp
    exact ⟨Or.inl (List.mem_of_find?_eq_some hfi), hp⟩
  | none =>
    rw [hfi] at h
    have h2 : inp.fin_st.find? (fun t => decide (t ∉ inp.states)) = some s := h
    have hp := List.find?_some h2
    simp only [decide_eq_true_eq] at hp
    exact ⟨Or.inr (List.mem_of_find?_eq_some h2), hp⟩

/-! ## C3: priority of the undefined-state check -/

/-- Strict-variant fixture for the C3 counterexample: empty initial set and
an undeclared accepting state `B`. -/
def fsaC3 : FSA2 := (FSA2.build ["A"] ["a"] [] ["B"] []).getD fsaDflt

/-- C3 (counterexample): in the synthesizer variant the declared accepting
state `B` is absent from the states set, yet `validate` reports the
no-initial-state error E2, not the undefined-state error naming `B` — the
undefined-state check is not the first check there. -/
theorem undefined_state_check_not_first_in_strict :
    fsaC3.accepting = ["B"] ∧ ("B" ∉ fsaC3.states) ∧
    fsaC3.validate = "E2: Initial state is not defined" ∧
    fsaC3.validate ≠ "E4: A state \x27B\x27 is not in the set of states" :=
  ⟨rfl, by decide, rfl, by decide⟩

/-- C3 (amended): in the validator variant, whenever some declared initial
or accepting state is absent from the states set, `validate` returns the E1
undefined-state error naming the first such identifier before any other
check runs — with no warnings, no completeness classification, and the
instance's graphs untouched. -/
theorem validator_undefined_state_error_first (inp : In1) (g0 ug0 : Gr1) :
    (e1first inp = none ↔
      (∀ t ∈ inp.init_st, t ∈ inp.states) ∧ (∀ t ∈ inp.fin_st, t ∈ inp.states)) ∧
    (∀ s, e1first inp = some s →
      (s ∈ inp.init_st ∨ s ∈ inp.fin_st) ∧ s ∉ inp.states ∧
      validate1 inp g0 ug0 = Except.ok
        (("E1: A state \x27" ++ s ++ "\x27 is not in the set of states", "", []), g0, ug0)) := by
  refine ⟨e1first_eq_none_iff inp, fun s hs => ?_⟩
  obtain ⟨hmem, habs⟩ := e1first_eq_some inp s hs
  refine ⟨hmem, habs, ?_⟩
  unfold validate1
  rw [hs]

/-- Witness for C3's amended theorem: `init.st=[X]` with `X` undeclared. -/
theorem validator_undefined_state_error_first_witness :
    validate1 ⟨["A"], ["a"], ["X"], [], []⟩ gr1empty gr1empty = Except.ok
      (("E1: A state \x27X\x27 is not in the set of states", "", []), gr1empty, gr1empty) :=
  ((validator_undefined_state_error_first ⟨["A"], ["a"], ["X"], [], []⟩ gr1empty gr1empty).2
    "X" rfl).2.2

/-! ## C10: `validate` performs no out-of-bounds list access -/

/-- The graph builder only ever raises `ValueError`. -/
theorem create_graphs1_error_kind (states : List String) :
    ∀ (trans : List String) (g0 ug0 : Gr1) (f : PyFault),
      create_graphs1 states trans g0 ug0 = Except.error f → f = PyFault.valueErr := by
  intro trans
  induction trans with
  | nil => intro g0 ug0 f h; exact Except.noConfusion h
  | cons el rest ih =>
    intro g0 ug0 f h
    unfold create_graphs1 at h
    split at h
    · injection h with h1
      exact h1.symm
    · split at h
      · exact ih _ _ _ h
      · exact ih _ _ _ h

/-- The transition-symbol scan only ever raises `ValueError`. -/
theorem e3scan_error_kind (alpha : List String) :
    ∀ (trans : List String) (f : PyFault),
      e3scan alpha trans = Except.error f → f = PyFault.valueErr := by
  intro trans
  induction trans with
  | nil => intro f h; exact Except.noConfusion h
  | cons el rest ih =>
    intro f h
    unfold e3scan at h
    split at h
    · injection h with h1
      exact h1.symm
    · split at h
      · exact Except.noConfusion h
      · exact ih _ h

/-- C10: under the parse-time precondition that the states list is
non-empty, every list access inside `validate` is in bounds: the
disjointness DFS starts from the first declared state, and the
unreachable-state warning reads the first initial state only after the
no-initial-state check has ensured the initial list is non-empty, so
`validate` never fails with an `IndexError`. -/
theorem validate1_no_index_fault (inp : In1) (g0 ug0 : Gr1) (h : inp.states ≠ []) :
    validate1 inp g0 ug0 ≠ Except.error PyFault.indexErr := by
  intro hv
  unfold validate1 at hv
  split at hv
  · exact Except.noConfusion hv
  · rename_i he
    split at hv
    · rename_i f hcg
      injection hv with h1
      have h2 := create_graphs1_error_kind inp.states inp.trans g0 ug0 f hcg
      rw [h2] at h1
      exact PyFault.noConfusion h1
    · rename_i g ug hcg
      split at hv
      · rename_i f hlg
        cases hst : inp.states with
        | nil => exact h hst
        | cons a l =>
          rw [hst] at hlg
          exact Except.noConfusion hlg
      · rename_i start hlg
        split at hv
        · exact Except.noConfusion hv
        · split at hv
          · rename_i f hsc
            injection hv with h1
            have h2 := e3scan_error_kind inp.alpha inp.trans f hsc
            rw [h2] at h1
            exact PyFault.noConfusion h1
          · exact Except.noConfusion hv
          · rename_i hsc
            split at hv
            · exact Except.noConfusion hv
            · rename_i hinit
              split at hv
              · rename_i f hlg2
                cases hi : inp.init_st with
                | nil =>
                  rw [hi] at hinit
                  exact hinit rfl
                | cons b m =>
                  rw [hi] at hlg2
                  exact Except.noConfusion hlg2
              · exact Except.noConfusion hv

/-- Witness for C10 at a concrete empty-transition automaton. -/
theorem validate1_no_index_fault_witness :
    validate1 ⟨["A"], ["a"], [], [], []⟩ gr1empty gr1empty ≠ Except.error PyFault.indexErr :=
  validate1_no_index_fault ⟨["A"], ["a"], [], [], []⟩ gr1empty gr1empty (by decide)

/-! ## C4: priority of the disjointness check -/

/-- Reachability along the edges of a name-keyed graph (used to state what
"one connected component" means for the undirected graph). -/
inductive Reach (g : Gr1) (s : String) : String → Prop where
  | refl : Reach g s s
  | step {v w a : String} : Reach g s v → (w, a) ∈ g v → Reach g s w

/-- Membership after a single `append` to one dict entry. -/
theorem mem_addE1 {g : Gr1} {k : String} {v : String × String} {u : String}
    {p : String × String} (h : p ∈ addE1 g k v u) : p ∈ g u ∨ p = v := by
  unfold addE1 at h
  by_cases hk : u = k
  · rw [if_pos hk] at h
    rcases List.mem_append.mp h with h1 | h1
    · exact Or.inl h1
    · simp only [List.mem_singleton] at h1
      exact Or.inr h1
  · rw [if_neg hk] at h
    exact Or.inl h

/-- Every destination stored in the undirected graph built by
`create_graphs` is a declared state (undeclared triples are dropped). -/
theorem create_graphs1_ug_decl (states : List String) :
    ∀ (trans : List String) (g0 ug0 g ug : Gr1),
      create_graphs1 states trans g0 ug0 = Except.ok (g, ug) →
      (∀ u p, p ∈ ug0 u → p.1 ∈ states) →
      ∀ u p, p ∈ ug u → p.1 ∈ states := by
  intro trans
  induction trans with
  | nil =>
    intro g0 ug0 g ug hok h0
    unfold create_graphs1 at hok
    injection hok with h1
    cases h1
    exact h0
  | cons el rest ih =>
    intro g0 ug0 g ug hok h0
    unfold create_graphs1 at hok
    split at hok
    · exact Except.noConfusion hok
    · rename_i s1 a s2 hsp
      split at hok
      · exact ih _ _ _ _ hok h0
      · rename_i hnot
        obtain ⟨h1, h2⟩ := not_or.mp hnot
        rw [not_not] at h1 h2
        refine ih _ _ _ _ hok ?_
        intro u p hp
        rcases mem_addE1 hp with hp1 | hp1
        · rcases mem_addE1 hp1 with hp2 | hp2
          · exact h0 u p hp2
          · rw [hp2]
            exact h2
        · rw [hp1]
          exact h1

/-- Soundness of the fuelled DFS: any property that holds at the start
node and on the incoming visited set, and is closed under following graph
edges, holds for everything the DFS returns. -/
theorem dfs1_closed (g : Gr1) (Q : String → Prop)
    (hQ : ∀ v w a, Q v → (w, a) ∈ g v → Q w) :
    ∀ (fuel : Nat) (u : String) (vis : List String), Q u → (∀ y ∈ vis, Q y) →
      ∀ x ∈ dfs1 g fuel u vis, Q x := by
  intro fuel
  induction fuel with
  | zero =>
    intro u vis hu hvis x hx
    exact hvis x hx
  | succ n ih =>
    intro u vis hu hvis x hx
    have base : ∀ y ∈ insertNew u vis, Q y := by
      intro y hy
      unfold insertNew at hy
      by_cases hm : u ∈ vis
      · rw [if_pos hm] at hy
        exact hvis y hy
      · rw [if_neg hm] at hy
        rcases List.mem_cons.mp hy with h1 | h1
        · rw [h1]
          exact hu
        · exact hvis y h1
    have inner : ∀ (l : List (String × String)) (vs : List String),
        (∀ p ∈ l, p ∈ g u) → (∀ y ∈ vs, Q y) →
        ∀ x ∈ l.foldl (fun vs v => if v.1 ∉ vs then dfs1 g n v.1 vs else vs) vs, Q x := by
      intro l
      induction l with
      | nil =>
        intro vs _ hvs x hx
        exact hvs x hx
      | cons p rest ihl =>
        intro vs hl hvs x hx
        rw [List.foldl_cons] at hx
        refine ihl _ (fun q hq => hl q (List.mem_cons_of_mem p hq)) ?_ x hx
        intro y hy
        by_cases hp : p.1 ∈ vs
        · rw [if_neg (not_not_intro hp)] at hy
          exact hvs y hy
        · rw [if_pos hp] at hy
          have hQp : Q p.1 := hQ u p.1 p.2 hu (hl p (List.mem_cons_self p rest))
          exact ih p.1 vs hQp hvs y hy
    exact inner (g u) (insertNew u vis) (fun p hp => hp) base x hx

/-- The fuelled DFS keeps the visited list duplicate-free. -/
theorem dfs1_nodup (g : Gr1) :
    ∀ (fuel : Nat) (u : String) (vis : List String), vis.Nodup → (dfs1 g fuel u vis).Nodup := by
  intro fuel
  induction fuel with
  | zero =>
    intro u vis hvis
    exact hvis
  | succ n ih =>
    intro u vis hvis
    have base : (insertNew u vis).Nodup := by
      unfold insertNew
      by_cases hm : u ∈ vis
      · rw [if_pos hm]
        exact hvis
      · rw [if_neg hm]
        exact List.nodup_cons.mpr ⟨hm, hvis⟩
    have inner : ∀ (l : List (String × String)) (vs : List String),
        vs.Nodup →
        (l.foldl (fun vs v => if v.1 ∉ vs then dfs1 g n v.1 vs else vs) vs).Nodup := by
      intro l
      induction l with
      | nil =>
        intro vs hvs
        exact hvs
      | cons p rest ihl =>
        intro vs hvs
        rw [List.foldl_cons]
        refine ihl _ ?_
        by_cases hp : p.1 ∈ vs
        · rw [if_neg (not_not_intro hp)]
          exact hvs
        · rw [if_pos hp]
          exact ih p.1 vs hvs
    exact inner (g u) (insertNew u vis) base

/-- Evaluation of `validate` down to the E2 row when the undirected DFS
from the first declared state does not visit every state. -/
theorem validate1_e2_row (inp : In1) (g0 ug0 g ug : Gr1) (a : String) (l : List String)
    (h1 : e1first inp = none)
    (hc : create_graphs1 inp.states inp.trans g0 ug0 = Except.ok (g, ug))
    (hst : inp.states = a :: l)
    (hd : (dfs1 ug ((a :: l).length + 1) a []).length ≠ (a :: l).length) :
    validate1 inp g0 ug0 = Except.ok (("E2: Some states are disjoint", "", []), g, ug) := by
  unfold validate1
  split
  · rename_i s heq
    rw [h1] at heq
    exact Option.noConfusion heq
  · split
    · rename_i f heq
      rw [hc] at heq
      exact Except.noConfusion heq
    · rename_i g2 ug2 heq
      rw [hc] at heq
      injection heq with heq2
      injection heq2 with heqg hequ
      subst heqg
      subst hequ
      split
      · rename_i f heq3
        rw [hst] at heq3
        have heq4 : Except.ok a = Except.error f := heq3
        exact Except.noConfusion heq4
      · rename_i start heq3
        rw [hst] at heq3
        have heq4 : Except.ok a = Except.ok start := heq3
        injection heq4 with heq5
        subst heq5
        rw [hst]
        rw [if_pos hd]

/-- C4 (amended): in the validator variant, if every declared initial and
accepting state is declared (the E1 check passes), the graphs build
successfully, and some declared state `t` is not connected to the first
declared state in the undirected graph, then `validate` returns the
disjoint-states error — even though an undefined-symbol or no-initial-state
error might also apply, because those checks come later there. -/
theorem disjoint_error_in_validator (inp : In1) (g ug : Gr1) (s0 t : String)
    (h1 : e1first inp = none)
    (hg : buildGraphs1 inp.states inp.trans = Except.ok (g, ug))
    (hs0 : inp.states.head? = some s0)
    (ht : t ∈ inp.states)
    (hnr : ¬ Reach ug s0 t) :
    validateRes1 inp gr1empty gr1empty =
      Except.ok ("E2: Some states are disjoint", "", []) := by
  obtain ⟨l, hst⟩ : ∃ l, inp.states = s0 :: l := by
    cases hsx : inp.states with
    | nil =>
      rw [hsx] at hs0
      exact absurd hs0 (by simp)
    | cons b l =>
      rw [hsx] at hs0
      simp only [List.head?_cons, Option.some.injEq] at hs0
      exact ⟨l, by rw [hs0]⟩
  have hQ : ∀ x ∈ dfs1 ug (inp.states.length + 1) s0 [], x ∈ inp.states ∧ Reach ug s0 x := by
    refine dfs1_closed ug (fun y => y ∈ inp.states ∧ Reach ug s0 y) ?_ _ s0 [] ?_ ?_
    · intro v w b hv hw
      refine ⟨?_, Reach.step hv.2 hw⟩
      exact create_graphs1_ug_decl inp.states inp.trans gr1empty gr1empty g ug hg
        (fun u p hp => absurd hp (List.not_mem_nil p)) v (w, b) hw
    · exact ⟨by rw [hst]; exact List.mem_cons_self s0 l, Reach.refl⟩
    · intro y hy
      exact absurd hy (List.not_mem_nil y)
  have hnodup : (dfs1 ug (inp.states.length + 1) s0 []).Nodup :=
    dfs1_nodup ug _ s0 [] List.nodup_nil
  have htL : t ∉ dfs1 ug (inp.states.length + 1) s0 [] :=
    fun hmem => hnr (hQ t hmem).2
  have hsub : (dfs1 ug (inp.states.length + 1) s0 []).toFinset ⊆
      inp.states.toFinset.erase t := by
    intro x hx
    rw [List.mem_toFinset] at hx
    rcases hQ x hx with ⟨hx1, _⟩
    rw [Finset.mem_erase]
    exact ⟨fun hxe => htL (hxe ▸ hx), List.mem_toFinset.mpr hx1⟩
  have hlen : (dfs1 ug (inp.states.length + 1) s0 []).length < inp.states.length := by
    have e1 : (dfs1 ug (inp.states.length + 1) s0 []).length =
        (dfs1 ug (inp.states.length + 1) s0 []).toFinset.card :=
      (List.toFinset_card_of_nodup hnodup).symm
    have e2 := Finset.card_le_card hsub
    have e3 : (inp.states.toFinset.erase t).card = inp.states.toFinset.card - 1 :=
      Finset.card_erase_of_mem (List.mem_toFinset.mpr ht)
    have e4 := List.toFinset_card_le inp.states
    have e5 : 1 ≤ inp.states.toFinset.card :=
      Finset.card_pos.mpr ⟨t, List.mem_toFinset.mpr ht⟩
    omega
  unfold validateRes1
  rw [validate1_e2_row inp gr1empty gr1empty g ug s0 l h1 hg hst
    (by rw [← hst]; exact Nat.ne_of_lt hlen)]
  rfl

/-- Validator-variant fixture for the C4 witness: `B` is declared but
isolated, while the symbol check would also fail downstream is not the case
here; the single transition is the self-loop `A>a>A`. -/
def inpC4w : In1 := ⟨["A", "B"], ["a"], ["A"], ["A"], ["A>a>A"]⟩

/-- Directed graph `create_graphs` builds for `inpC4w`. -/
def gW4 : Gr1 := addE1 gr1empty "A" ("A", "a")

/-- Undirected graph `create_graphs` builds for `inpC4w` (the self-loop is
mirrored into the same cell twice). -/
def ugW4 : Gr1 := addE1 (addE1 gr1empty "A" ("A", "a")) "A" ("A", "a")

/-- Witness for C4's amended theorem at `inpC4w`. -/
theorem disjoint_error_in_validator_witness :
    validateRes1 inpC4w gr1empty gr1empty =
      Except.ok ("E2: Some states are disjoint", "", []) := by
  refine disjoint_error_in_validator inpC4w gW4 ugW4 "A" "B" rfl rfl rfl (by decide) ?_
  intro hr
  have key : ∀ x, Reach ugW4 "A" x → x = "A" := by
    intro x hx
    induction hx with
    | refl => rfl
    | step hv hw ih =>
      subst ih
      have hcell : ugW4 "A" = [("A", "a"), ("A", "a")] := rfl
      rw [hcell] at hw
      rcases List.mem_cons.mp hw with h1 | h1
      · exact congrArg Prod.fst h1
      · rcases List.mem_cons.mp h1 with h2 | h2
        · exact congrArg Prod.fst h2
        · exact absurd h2 (List.not_mem_nil _)
  exact absurd (key "B" hr) (by decide)

/-- Strict-variant fixture for the C4 counterexample: disjoint states `A`,
`B` plus an undeclared transition symbol `b`. -/
def fsaC4 : FSA2 := (FSA2.build ["A", "B"] ["a"] ["A"] ["A"] ["A>b>A"]).getD fsaDflt

/-- C4 (counterexample): in the synthesizer variant this automaton passes
the undefined-state membership check and its undirected graph leaves `B`
disconnected (the code's own reachability check `__check_E6` confirms it),
yet `validate` reports the undefined-symbol error E5, not the
disjoint-states error — the disjointness check does not precede the symbol
check there. -/
theorem disjoint_check_not_prior_in_strict :
    fsaC4.checkE4 = none ∧ fsaC4.checkE6 = true ∧
    fsaC4.validate = "E5: A transition \x27b\x27 is not represented in the alphabet" ∧
    fsaC4.validate ≠ "E6: Some states are disjoint" :=
  ⟨rfl, rfl, rfl, by decide⟩

/-! ## C9: completeness classification -/

/-- Contribution of a single transition string to the adjacency list of
source state `u` under the lenient builder: the `(destination, symbol)`
pair when the triple is well formed, has declared endpoints and starts at
`u`; nothing otherwise. -/
def adjOf (states : List String) (u : String) (el : String) : List (String × String) :=
  ((split3 el).map (fun t =>
    if t.1 ∈ states ∧ t.2.2 ∈ states ∧ t.1 = u then [(t.2.2, t.2.1)] else [])).getD []

/-- Adjacency list the lenient graph builder produces for one source state:
destination/symbol pairs of the declared-endpoint triples with that source,
in transition order. -/
def transAdj (states : List String) (u : String) : List String → List (String × String)
  | [] => []
  | el :: rest => adjOf states u el ++ transAdj states u rest

/-- The directed graph built by `create_graphs` is exactly `transAdj` on
top of the incoming dict. -/
theorem create_graphs1_graph (states : List String) :
    ∀ (trans : List String) (g0 ug0 g ug : Gr1),
      create_graphs1 states trans g0 ug0 = Except.ok (g, ug) →
      ∀ u, g u = g0 u ++ transAdj states u trans := by
  intro trans
  induction trans with
  | nil =>
    intro g0 ug0 g ug hok u
    unfold create_graphs1 at hok
    injection hok with h1
    cases h1
    simp [transAdj]
  | cons el rest ih =>
    intro g0 ug0 g ug hok u
    unfold create_graphs1 at hok
    split at hok
    · exact Except.noConfusion hok
    · rename_i s1 a s2 hsp
      rw [show transAdj states u (el :: rest) = adjOf states u el ++ transAdj states u rest
        from rfl]
      split at hok
      · rename_i hskip
        have hadj : adjOf states u el = [] := by
          unfold adjOf
          rw [hsp]
          simp only [Option.map_some', Option.getD_some]
          rw [if_neg]
          rintro ⟨c1, c2, -⟩
          rcases hskip with hs | hs
          · exact hs c1
          · exact hs c2
        rw [ih _ _ _ _ hok u, hadj, List.nil_append]
      · rename_i hskip
        obtain ⟨h1, h2⟩ := not_or.mp hskip
        rw [not_not] at h1 h2
        have hg := ih _ _ _ _ hok u
        rw [hg]
        unfold addE1
        by_cases hu : u = s1
        · have hadj : adjOf states u el = [(s2, a)] := by
            unfold adjOf
            rw [hsp]
            simp only [Option.map_some', Option.getD_some]
            rw [if_pos ⟨h1, h2, hu.symm⟩]
          rw [if_pos hu, hadj, List.append_assoc]
        · have hadj : adjOf states u el = [] := by
            unfold adjOf
            rw [hsp]
            simp only [Option.map_some', Option.getD_some]
            rw [if_neg]
            rintro ⟨-, -, c3⟩
            exact hu c3.symm
          rw [if_neg hu, hadj, List.nil_append]

/-- Every pair produced by `transAdj` comes from a transition string of the
list whose source is `u`. -/
theorem transAdj_mem_spec (states : List String) (u : String) :
    ∀ (trans : List String) (p : String × String), p ∈ transAdj states u trans →
      ∃ el ∈ trans, split3 el = some (u, p.2, p.1) := by
  intro trans
  induction trans with
  | nil =>
    intro p hp
    exact absurd hp (List.not_mem_nil p)
  | cons el0 rest ih =>
    intro p hp
    rw [show transAdj states u (el0 :: rest) = adjOf states u el0 ++ transAdj states u rest
      from rfl] at hp
    rcases List.mem_append.mp hp with h1 | h1
    · unfold adjOf at h1
      cases hsp : split3 el0 with
      | none =>
        rw [hsp] at h1
        exact absurd h1 (List.not_mem_nil p)
      | some t =>
        obtain ⟨s1, b, s2⟩ := t
        rw [hsp] at h1
        simp only [Option.map_some', Option.getD_some] at h1
        by_cases hc : s1 ∈ states ∧ s2 ∈ states ∧ s1 = u
        · rw [if_pos hc] at h1
          rcases List.mem_cons.mp h1 with h2 | h2
          · subst h2
            refine ⟨el0, List.mem_cons_self el0 rest, ?_⟩
            rw [← hc.2.2]
            exact hsp
          · exact absurd h2 (List.not_mem_nil p)
        · rw [if_neg hc] at h1
          exact absurd h1 (List.not_mem_nil p)
    · obtain ⟨el', hel', h'⟩ := ih p h1
      exact ⟨el', List.mem_cons_of_mem el0 hel', h'⟩

/-- When the symbol scan succeeds with no offender, every well-formed
transition's symbol belongs to the alphabet. -/
theorem e3scan_ok_none (alpha : List String) :
    ∀ (trans : List String), e3scan alpha trans = Except.ok none →
      ∀ el ∈ trans, ∀ s1 a s2, split3 el = some (s1, a, s2) → a ∈ alpha := by
  intro trans
  induction trans with
  | nil =>
    intro _ el hel
    exact absurd hel (List.not_mem_nil el)
  | cons el0 rest ih =>
    intro h el hel s1 a s2 hsp
    unfold e3scan at h
    split at h
    · exact Except.noConfusion h
    · rename_i s1' a' s2' hsp'
      split at h
      · injection h with h1
        exact Option.noConfusion h1
      · rename_i ha'
        rw [not_not] at ha'
        rcases List.mem_cons.mp hel with h1 | h1
        · subst h1
          rw [hsp] at hsp'
          simp only [Option.some.injEq, Prod.mk.injEq] at hsp'
          rw [hsp'.2.1]
          exact ha'
        · exact ih h el h1 s1 a s2 hsp

/-- The completion loop reports a complete FSA exactly when no declared
state has fewer distinct outgoing symbols than the alphabet has entries. -/
theorem completionLoop_complete_iff (g : Gr1) (alpha : List String) :
    ∀ states : List String, completionLoop g alpha states = "FSA is complete" ↔
      ∀ u ∈ states, ¬ (((g u).map Prod.snd).dedup.length < alpha.length) := by
  intro states
  induction states with
  | nil => simp [completionLoop]
  | cons u rest ih =>
    unfold completionLoop
    by_cases hu : ((g u).map Prod.snd).dedup.length < alpha.length
    · rw [if_pos hu]
      refine iff_of_false (by decide) (fun hall => ?_)
      exact hall u (List.mem_cons_self u rest) hu
    · rw [if_neg hu, ih]
      constructor
      · intro hall v hv
        rcases List.mem_cons.mp hv with h1 | h1
        · rw [h1]
          exact hu
        · exact hall v h1
      · intro hall v hv
        exact hall v (List.mem_cons_of_mem u hv)

/-- The completion loop reports an incomplete FSA as soon as one declared
state falls short of the alphabet. -/
theorem completionLoop_incomplete (g : Gr1) (alpha : List String) :
    ∀ (states : List String) (u : String), u ∈ states →
      ((g u).map Prod.snd).dedup.length < alpha.length →
      completionLoop g alpha states = "FSA is incomplete" := by
  intro states
  induction states with
  | nil =>
    intro u hu
    exact absurd hu (List.not_mem_nil u)
  | cons v rest ih =>
    intro u hu hlt
    unfold completionLoop
    by_cases hv : ((g v).map Prod.snd).dedup.length < alpha.length
    · rw [if_pos hv]
    · rw [if_neg hv]
      rcases List.mem_cons.mp hu with h1 | h1
      · exact absurd (h1 ▸ hlt) hv
      · exact ih u h1 hlt

/-- The completion classification is always one of the two fixed lines. -/
theorem completionLoop_cases (g : Gr1) (alpha : List String) :
    ∀ states : List String, completionLoop g alpha states = "FSA is complete" ∨
      completionLoop g alpha states = "FSA is incomplete" := by
  intro states
  induction states with
  | nil => exact Or.inl rfl
  | cons u rest ih =>
    unfold completionLoop
    by_cases hu : ((g u).map Prod.snd).dedup.length < alpha.length
    · rw [if_pos hu]
      exact Or.inr rfl
    · rw [if_neg hu]
      exact ih

/-- Inversion of a successful `validate` run: the E1 check passed, the
graphs are the built ones, the symbol scan found no offender, and the
completeness line is the completion loop's verdict over the built graph. -/
theorem validate1_ok_inv (inp : In1) (g0 ug0 g ug : Gr1) (comp : String) (ws : List String)
    (h : validate1 inp g0 ug0 = Except.ok (("", comp, ws), g, ug)) :
    e1first inp = none ∧
    create_graphs1 inp.states inp.trans g0 ug0 = Except.ok (g, ug) ∧
    e3scan inp.alpha inp.trans = Except.ok none ∧
    comp = completionLoop g inp.alpha inp.states := by
  unfold validate1 at h
  split at h
  · rename_i s heq
    injection h with h1
    injection h1 with h2 h3
    injection h2 with h4 h5
    exact absurd h4 (msg_ne_empty _ s _ (by decide))
  · rename_i heq
    split at h
    · exact Except.noConfusion h
    · rename_i g2 ug2 hcg
      split at h
      · exact Except.noConfusion h
      · rename_i start hlg
        split at h
        · injection h with h1
          injection h1 with h2 h3
          injection h2 with h4 h5
          exact absurd h4.symm (by decide)
        · split at h
          · exact Except.noConfusion h
          · rename_i a hsc
            injection h with h1
            injection h1 with h2 h3
            injection h2 with h4 h5
            exact absurd h4 (msg_ne_empty _ a _ (by decide))
          · rename_i hsc
            split at h
            · injection h with h1
              injection h1 with h2 h3
              injection h2 with h4 h5
              exact absurd h4.symm (by decide)
            · split at h
              · exact Except.noConfusion h
              · rename_i start2 hlg2
                injection h with h1
                injection h1 with h2 h3
                injection h2 with h4 h5
                injection h5 with h6 h7
                injection h3 with h8 h9
                subst h8
                subst h9
                exact ⟨heq, hcg, hsc, h6.symm⟩

/-- C9 (amended): for every validated automaton with a duplicate-free
alphabet (the data model's alphabet is a set), the classification is
`FSA is complete` exactly when every declared state's set of distinct
outgoing symbols equals the alphabet as a set (and it is always one of the
two fixed lines); and removing a single declared-endpoint edge whose
`(source, symbol)` pair labels no other edge of its source turns the
classification of the rebuilt graph into `FSA is incomplete`. -/
theorem completeness_classification (inp : In1) (g ug g2 ug2 : Gr1)
    (comp : String) (ws : List String) (pre post : List String) (el s1 a s2 : String)
    (hnd : inp.alpha.Nodup) :
    (validate1 inp gr1empty gr1empty = Except.ok (("", comp, ws), g, ug) →
      (comp = "FSA is complete" ∨ comp = "FSA is incomplete") ∧
      (comp = "FSA is complete" ↔
        ∀ u ∈ inp.states, ((g u).map Prod.snd).toFinset = inp.alpha.toFinset)) ∧
    (inp.trans = pre ++ el :: post →
      split3 el = some (s1, a, s2) →
      s1 ∈ inp.states → s2 ∈ inp.states →
      (∀ p ∈ transAdj inp.states s1 (pre ++ post), p.2 ≠ a) →
      validate1 inp gr1empty gr1empty = Except.ok (("", "FSA is complete", ws), g, ug) →
      create_graphs1 inp.states (pre ++ post) gr1empty gr1empty = Except.ok (g2, ug2) →
      completionLoop g2 inp.alpha inp.states = "FSA is incomplete") := by
  constructor
  · intro hv
    obtain ⟨h1, hcg, hsc, hcomp⟩ := validate1_ok_inv inp gr1empty gr1empty g ug comp ws hv
    have hgu : ∀ u, g u = transAdj inp.states u inp.trans := by
      intro u
      have hh := create_graphs1_graph inp.states inp.trans gr1empty gr1empty g ug hcg u
      simpa [gr1empty] using hh
    have hsymal : ∀ u x, x ∈ (g u).map Prod.snd → x ∈ inp.alpha := by
      intro u x hx
      rw [hgu] at hx
      obtain ⟨p, hp, hpx⟩ := List.mem_map.mp hx
      obtain ⟨el', hel', hsp'⟩ := transAdj_mem_spec inp.states u inp.trans p hp
      have := e3scan_ok_none inp.alpha inp.trans hsc el' hel' u p.2 p.1 hsp'
      rw [← hpx]
      exact this
    constructor
    · rw [hcomp]
      exact completionLoop_cases g inp.alpha inp.states
    · rw [hcomp, completionLoop_complete_iff]
      constructor
      · intro hall u hu
        have hn := hall u hu
        have hsub : ((g u).map Prod.snd).toFinset ⊆ inp.alpha.toFinset := by
          intro x hx
          exact List.mem_toFinset.mpr (hsymal u x (List.mem_toFinset.mp hx))
        refine Finset.eq_of_subset_of_card_le hsub ?_
        rw [List.toFinset_card_of_nodup hnd, List.card_toFinset]
        omega
      · intro hall u hu
        have he := hall u hu
        have h1c : ((g u).map Prod.snd).toFinset.card = inp.alpha.toFinset.card := by
          rw [he]
        rw [List.card_toFinset, List.toFinset_card_of_nodup hnd] at h1c
        omega
  · intro htr hsp hs1 hs2 hnone hv hcg2
    obtain ⟨h1, hcg, hsc, hcomp⟩ :=
      validate1_ok_inv inp gr1empty gr1empty g ug "FSA is complete" ws hv
    have hg2u : ∀ u, g2 u = transAdj inp.states u (pre ++ post) := by
      intro u
      have hh := create_graphs1_graph inp.states (pre ++ post) gr1empty gr1empty g2 ug2 hcg2 u
      simpa [gr1empty] using hh
    have ha : a ∈ inp.alpha := by
      refine e3scan_ok_none inp.alpha inp.trans hsc el ?_ s1 a s2 hsp
      rw [htr]
      exact List.mem_append_right pre (List.mem_cons_self el post)
    have hsub2 : ((g2 s1).map Prod.snd).toFinset ⊆ inp.alpha.toFinset.erase a := by
      intro x hx
      rw [List.mem_toFinset] at hx
      obtain ⟨p, hp, hpx⟩ := List.mem_map.mp hx
      rw [hg2u] at hp
      refine Finset.mem_erase.mpr ⟨?_, ?_⟩
      · rw [← hpx]
        exact hnone p hp
      · obtain ⟨el', hel', hsp'⟩ := transAdj_mem_spec inp.states s1 (pre ++ post) p hp
        have hel'' : el' ∈ inp.trans := by
          rw [htr]
          rcases List.mem_append.mp hel' with hh | hh
          · exact List.mem_append_left _ hh
          · exact List.mem_append_right _ (List.mem_cons_of_mem el hh)
        have := e3scan_ok_none inp.alpha inp.trans hsc el' hel'' s1 p.2 p.1 hsp'
        rw [← hpx]
        exact List.mem_toFinset.mpr this
    have hlt : ((g2 s1).map Prod.snd).dedup.length < inp.alpha.length := by
      have c1 := Finset.card_le_card hsub2
      have c2 : (inp.alpha.toFinset.erase a).card = inp.alpha.toFinset.card - 1 :=
        Finset.card_erase_of_mem (List.mem_toFinset.mpr ha)
      have c3 : inp.alpha.toFinset.card = inp.alpha.length :=
        List.toFinset_card_of_nodup hnd
      have c4 : 1 ≤ inp.alpha.toFinset.card :=
        Finset.card_pos.mpr ⟨a, List.mem_toFinset.mpr ha⟩
      rw [List.card_toFinset] at c1
      omega
    exact completionLoop_incomplete g2 inp.alpha inp.states s1 hs1 hlt

/-- Input of the C9 witness: the complete one-state automaton whose single
transition is the self-loop `A>a>A`. -/
def inpC9w : In1 := ⟨["A"], ["a"], ["A"], ["A"], ["A>a>A"]⟩

/-- Witness for C9's amended theorem: removing the only edge of the
complete fixture leaves the empty graph, classified incomplete. -/
theorem completeness_classification_witness :
    completionLoop gr1empty ["a"] ["A"] = "FSA is incomplete" :=
  (completeness_classification inpC9w gW4 ugW4 gr1empty gr1empty "FSA is complete" []
    [] [] "A>a>A" "A" "a" "A" (by decide)).2 rfl rfl (by decide) (by decide)
    (fun p hp => absurd hp (List.not_mem_nil p)) rfl rfl

/-- Inputs of the C9 counterexample: the duplicated self-loop and the same
automaton with one copy of the edge removed. -/
def inpC9dup : In1 := ⟨["A"], ["a"], ["A"], ["A"], ["A>a>A", "A>a>A"]⟩

/-- Automaton `inpC9dup` with one copy of its duplicated edge removed. -/
def inpC9dup1 : In1 := ⟨["A"], ["a"], ["A"], ["A"], ["A>a>A"]⟩

/-- C9 (counterexample): the duplicated-edge automaton passes every hard
check and is classified complete; removing one copy of the duplicate edge
still leaves it classified complete, not incomplete — so removing a single
edge from a complete automaton does not always make it incomplete. -/
theorem remove_edge_can_keep_complete :
    validateRes1 inpC9dup gr1empty gr1empty =
      Except.ok ("", "FSA is complete", ["W3: FSA is nondeterministic"]) ∧
    validateRes1 inpC9dup1 gr1empty gr1empty = Except.ok ("", "FSA is complete", []) ∧
    ("FSA is complete" : String) ≠ "FSA is incomplete" :=
  ⟨rfl, rfl, by decide⟩
